import Mathlib

/-!
Verification of the ProjectHarvest analytics core against its specification.

The development shallowly embeds the time-series feature extraction, the
7-day CCU forecast loop and the hybrid anomaly/spike detector of
`app/services/ml_service.py` into Lean.  Python floats are modelled as exact
rationals (ℚ); Python's `int(x)` cast is modelled as truncation toward zero;
Python's `round(x, 1)` as round-half-to-even at one decimal.  Square roots
(needed by `np.std`, by `StandardScaler` and by Euclidean distances) are not
rational-valued, so every definition that needs one is parametrised by an
explicit `sq : ℚ → ℚ` function; theorems assume only the properties of `sq`
they need (for example `sq 0 = 0`), and concrete evaluations instantiate
`sq` with `ratSqrt`, which is exact on perfect squares of rationals.

The three statistical sub-detectors delegate to third-party libraries
(statsmodels STL, scipy find_peaks, scikit-learn LocalOutlierFactor) whose
code is not part of this repository; those parts are modelled from the
specification's description of them, and each such definition carries a
doc comment saying so.
-/

namespace Harvest

/-! ## Numeric primitives -/

/-- Python's `int(x)` applied to a float: truncation toward zero.
On a reduced rational this is T-division of the numerator by the
denominator. -/
def truncQ (q : ℚ) : ℤ := Int.tdiv q.num q.den

/-- Floor of a rational, computed by E-division (the denominator is
positive, so E-division is floor division). -/
def ratFloor (q : ℚ) : ℤ := Int.ediv q.num q.den

/-- Python's `round(x)`: round half to even (banker's rounding). -/
def pyRound (q : ℚ) : ℤ :=
  let f := ratFloor q
  let r := q - (f : ℚ)
  if r < 1/2 then f
  else if 1/2 < r then f + 1
  else if 2 ∣ f then f else f + 1

/-- Python's `round(x, 1)`: round to one decimal place. -/
def round1 (q : ℚ) : ℚ := (pyRound (q * 10) : ℚ) / 10

/-- Insertion step for `sortQ`. -/
def insertQ (a : ℚ) : List ℚ → List ℚ
  | [] => [a]
  | b :: bs => if a ≤ b then a :: b :: bs else b :: insertQ a bs

/-- Ascending insertion sort on rationals (numpy sorts ascending before
computing percentiles). -/
def sortQ : List ℚ → List ℚ
  | [] => []
  | a :: as => insertQ a (sortQ as)

/-- Model of `np.mean`: arithmetic mean.  (On the empty list this yields `0` because
division by zero is `0` in ℚ; numpy would produce NaN, but no embedded code
path takes the mean of an empty list.) -/
def npMean (l : List ℚ) : ℚ := l.sum / (l.length : ℚ)

/-- Population variance, the square of `np.std`. -/
def npVariance (l : List ℚ) : ℚ :=
  (l.map (fun x => (x - npMean l) * (x - npMean l))).sum / (l.length : ℚ)

/-- Model of `np.std` relative to an explicit square-root function. -/
def npStd (sq : ℚ → ℚ) (l : List ℚ) : ℚ := sq (npVariance l)

/-- Model of `np.max` of a series (0 on the empty list, which no embedded code path
reaches). -/
def npMax (l : List ℚ) : ℚ := l.foldl max (l.headD 0)

/-- Model of `np.percentile(l, p)` with numpy's default linear interpolation:
position `(len-1) * p / 100` into the ascending sort, interpolating
linearly between the two neighbouring order statistics. -/
def npPercentile (l : List ℚ) (p : ℚ) : ℚ :=
  let s := sortQ l
  let pos : ℚ := ((l.length - 1 : ℕ) : ℚ) * p / 100
  let f : ℕ := (ratFloor pos).toNat
  let a := s.getD f 0
  let b := s.getD (min (f + 1) (l.length - 1)) 0
  a + (pos - (f : ℚ)) * (b - a)

/-- Python's `max(group, key=f)`: the first element attaining the maximum
key (Python's `max` keeps the earliest maximal element on ties).  Returns
`0` on the empty list, which the embedded code never passes. -/
def argmaxKey (f : ℕ → ℚ) : List ℕ → ℕ
  | [] => 0
  | x :: xs => xs.foldl (fun b i => if f b < f i then i else b) x

/-! ## Trend feature extraction (`_calculate_trend_features`) -/

/-- The `stats_7d` payload the service reads: a success flag and the list
`data.stats` of CCU samples. -/
structure Stats7d where
  success : Bool
  data_points : List ℚ
deriving DecidableEq

/-- The four derived scalar features. -/
structure TrendFeatures where
  avg_ccu_7d : ℚ
  trend_slope : ℚ
  volatility : ℚ
  recent_momentum : ℚ
deriving DecidableEq

/-- The all-zero feature bundle returned by the guards. -/
def zeroFeatures : TrendFeatures := ⟨0, 0, 0, 0⟩

/-- Embedding of `MLService._calculate_trend_features`: baseline mean, early-vs-late
quarter trend slope, coefficient-of-variation volatility and
last-20%-vs-middle-20% momentum, with all-zero results when the payload is
unsuccessful or has fewer than 10 samples.  `len(arr) * 0.2` under float
arithmetic always truncates to `len / 5` (the product is never rounded
below the exact value), so the recent window size is embedded as `len / 5`. -/
def calculateTrendFeatures (sq : ℚ → ℚ) (s : Stats7d) : TrendFeatures :=
  if ¬ s.success then zeroFeatures
  else
    let dp := s.data_points
    let n := dp.length
    if dp.length < 10 then zeroFeatures
    else
      let avg := npMean dp
      let quarter := n / 4
      let earlyAvg := npMean (dp.take quarter)
      let lateAvg := npMean (dp.drop (n - quarter))
      let slope := (lateAvg - earlyAvg) / max earlyAvg 1 * 100
      let vol := npStd sq dp / max (npMean dp) 1
      let recentPct := n / 5
      let recentAvg := npMean (dp.drop (n - recentPct))
      let lo := n / 2 - recentPct / 2
      let hi := n / 2 + recentPct / 2
      let middleAvg := npMean ((dp.drop lo).take (hi - lo))
      let momentum := (recentAvg - middleAvg) / max middleAvg 1 * 100
      ⟨avg, slope, vol, momentum⟩

/-! ## 7-day forecast loop (`predict_future_ccu`) -/

/-- One entry of the `daily_forecast` list. -/
structure DayForecast where
  day : ℕ
  predicted_ccu : ℤ
  change_from_baseline : ℚ
  confidence_lower : ℤ
  confidence_upper : ℤ
deriving DecidableEq

/-- The per-day trend rate: `trend_slope / 100 / 7`. -/
def dailyTrendRate (trend_slope : ℚ) : ℚ := trend_slope / 100 / 7

/-- The predicted CCU for a single day of the forecast loop:
`max(0, int(baseline_ccu * (1 + daily_trend_rate * day)))`.  Python's
`int` truncates toward zero. -/
def predictedDayCcu (baseline_ccu trend_slope : ℚ) (day : ℕ) : ℤ :=
  max 0 (truncQ (baseline_ccu * (1 + dailyTrendRate trend_slope * (day : ℚ))))

/-- One iteration of the forecast loop: predicted CCU, percentage change
from baseline, and the `± 1.5 × MAE` confidence band floored at zero. -/
def dayForecast (baseline_ccu trend_slope mae : ℚ) (day : ℕ) : DayForecast :=
  let p := predictedDayCcu baseline_ccu trend_slope day
  let change := if 0 < baseline_ccu
    then ((p : ℚ) - baseline_ccu) / baseline_ccu * 100 else 0
  { day := day
    predicted_ccu := p
    change_from_baseline := round1 change
    confidence_lower := max 0 (truncQ ((p : ℚ) - mae * (3/2)))
    confidence_upper := truncQ ((p : ℚ) + mae * (3/2)) }

/-- The `daily_forecast` list for days 1..7. -/
def dailyForecast (baseline_ccu trend_slope mae : ℚ) : List DayForecast :=
  (List.range 7).map (fun i => dayForecast baseline_ccu trend_slope mae (i + 1))

/-- The headline 7-day prediction: the day-7 entry of the forecast list. -/
def predictedCcu7d (baseline_ccu trend_slope mae : ℚ) : ℤ :=
  ((dailyForecast baseline_ccu trend_slope mae).getLastD
    (dayForecast baseline_ccu trend_slope mae 7)).predicted_ccu

/-! ## Seasonal-residual sub-detector (`_detect_anomalies_stl`)

The length guard and the IQR filter on residuals are translated from
`ml_service.py`; the decomposition itself is performed by statsmodels'
`STL`, which is not part of this repository and is modelled from the
spec. -/

/-- Modelled from the spec: the trend component of the decomposition, a
centered moving average of window `p` (clamped at the borders). -/
def movingAvg (p : ℕ) (l : List ℚ) : List ℚ :=
  (List.range l.length).map (fun i =>
    let lo := i - p / 2
    let hi := min l.length (i + p / 2 + 1)
    npMean ((l.drop lo).take (hi - lo)))

/-- Modelled from the spec: the seasonal component source, the mean of the
elements of `l` whose index is congruent to `j` modulo `p`. -/
def seasonalMean (p : ℕ) (l : List ℚ) (j : ℕ) : ℚ :=
  npMean ((((List.range l.length).filter (fun i => i % p = j)).map
    (fun i => l.getD i 0)))

/-- Modelled from the spec: statsmodels' `STL(arr, period=48, robust=True)`
decomposes the series into trend, seasonal and residual components with a
daily seasonal period; this model uses the classical additive
decomposition (moving-average trend, per-period-position seasonal means of
the detrended series centered to zero, remainder residual), which realises
the trend/seasonal/residual contract the spec states. -/
def stlResiduals (p : ℕ) (l : List ℚ) : List ℚ :=
  let trend := movingAvg p l
  let detrended := l.zipWith (fun x t => x - t) trend
  let seasonalRaw := fun j => seasonalMean p detrended j
  let seasonalOffset := npMean ((List.range (min p l.length)).map seasonalRaw)
  (List.range l.length).map (fun i =>
    l.getD i 0 - trend.getD i 0 - (seasonalRaw (i % p) - seasonalOffset))

/-- Embedding of `MLService._detect_anomalies_stl`: empty below `2 × period` samples,
otherwise the indices whose decomposition residual exceeds
`Q3 + 1.5 × IQR` of the residual distribution (upper tail only). -/
def detectAnomaliesStl (l : List ℚ) (period : ℕ := 48) : List ℕ :=
  if l.length < period * 2 then []
  else
    let residuals := stlResiduals period l
    let q1 := npPercentile residuals 25
    let q3 := npPercentile residuals 75
    let iqr := q3 - q1
    let upperBound := q3 + (3/2) * iqr
    (List.range l.length).filter (fun i =>
      decide (upperBound < residuals.getD i 0))

/-! ## Peak-prominence sub-detector (`_detect_anomalies_peaks`)

The 90th-percentile prominence filter is translated from `ml_service.py`;
`scipy.signal.find_peaks(arr, distance=6, prominence=1)` is not part of
this repository and is modelled from the spec: local maxima (with plateau
handling, reporting the plateau midpoint), thinned so that no two kept
peaks lie closer than `distance` samples (higher peaks win), keeping peaks
of topographic prominence at least 1. -/

/-- Distance between two sample indices. -/
def natDist (a b : ℕ) : ℕ := max a b - min a b

/-- Modelled from the spec: scipy's plateau-aware local maximum test --
index `i` opens a maximal plateau if
its left neighbour is strictly lower and the first differing value to the
right is also strictly lower; the reported peak is the plateau midpoint. -/
def plateauPeak (x : List ℚ) (i : ℕ) : Option ℕ :=
  if 0 < i ∧ i < x.length ∧ x.getD (i - 1) 0 < x.getD i 0 then
    match (x.drop (i + 1)).findIdx? (fun y => decide (y ≠ x.getD i 0)) with
    | none => none
    | some k =>
      let j := i + 1 + k
      if x.getD j 0 < x.getD i 0 then some ((i + (j - 1)) / 2) else none
  else none

/-- Modelled from the spec: all plateau-aware local maxima of a series, in
ascending index order (scipy `_local_maxima_1d`). -/
def localMaxima (x : List ℚ) : List ℕ :=
  (List.range x.length).filterMap (plateauPeak x)

/-- Stable ascending insertion sort of peak indices by peak height. -/
def insertByHeight (x : List ℚ) (a : ℕ) : List ℕ → List ℕ
  | [] => [a]
  | b :: bs =>
    if x.getD a 0 < x.getD b 0 then a :: b :: bs else b :: insertByHeight x a bs

/-- Stable ascending sort of peak indices by peak height. -/
def sortByHeight (x : List ℚ) : List ℕ → List ℕ
  | [] => []
  | a :: as => insertByHeight x a (sortByHeight x as)

/-- The removal sweep of the minimum-distance filter: peaks are visited in
descending height order; a peak that has not itself been removed removes
every other peak closer than `d` samples. -/
def distanceSweep (peaks : List ℕ) (d : ℕ) (rem : List ℕ) :
    List ℕ → List ℕ
  | [] => rem
  | p :: ps =>
    if p ∈ rem then distanceSweep peaks d rem ps
    else
      distanceSweep peaks d
        (rem ++ peaks.filter (fun q => decide (q ≠ p ∧ natDist q p < d))) ps

/-- Modelled from the spec: scipy's minimum-distance thinning of the local
maxima (higher peaks win). -/
def selectByDistance (x : List ℚ) (peaks : List ℕ) (d : ℕ) : List ℕ :=
  let priority := (sortByHeight x peaks).reverse
  let removed := distanceSweep peaks d [] priority
  peaks.filter (fun p => decide (p ∉ removed))

/-- Modelled from the spec: the topographic prominence of a peak -- its
height above the higher of the
two lowest points reachable to the left and right without passing a
strictly higher sample. -/
def prominence (x : List ℚ) (p : ℕ) : ℚ :=
  let xp := x.getD p 0
  let leftRun := ((x.take (p + 1)).reverse).takeWhile (fun v => decide (v ≤ xp))
  let rightRun := (x.drop p).takeWhile (fun v => decide (v ≤ xp))
  let leftMin := leftRun.foldl min xp
  let rightMin := rightRun.foldl min xp
  xp - max leftMin rightMin

/-- Embedding of `MLService._detect_anomalies_peaks`: find peaks with minimum distance 6
and prominence at least 1; return those whose prominence reaches the 90th
percentile of the found peaks' prominences. -/
def detectAnomaliesPeaks (l : List ℚ) (prominencePercentile : ℚ := 90)
    (d : ℕ := 6) : List ℕ :=
  let afterDistance := selectByDistance l (localMaxima l) d
  let allPeaks := (afterDistance.map (fun p => (p, prominence l p))).filter
    (fun q => decide (1 ≤ q.2))
  if allPeaks.isEmpty then []
  else
    let proms := allPeaks.map (fun q => q.2)
    let threshold := npPercentile proms prominencePercentile
    (allPeaks.filter (fun q => decide (threshold ≤ q.2))).map (fun q => q.1)

/-! ## Local-outlier-factor sub-detector (`_detect_anomalies_lof`)

Modelled from the spec: scikit-learn's
`LocalOutlierFactor(n_neighbors=20, contamination=0.05).fit_predict` on the
standardized (CCU value, time index) feature space is not part of this
repository.  The model below computes the standard LOF scores
(k-distances, reachability distances, local reachability densities, score
= mean ratio of neighbour density to own density) and labels as outliers
the points whose negative score lies strictly below the
contamination-quantile of all negative scores, which is the library's
documented decision rule for an explicit contamination value.  A
zero-variance feature column standardizes to zeros (the library's
zero-variance guard), and a series of fewer than two samples yields no
labels (the library rejects such input; the hybrid caller treats that as
zero votes). -/

/-- Modelled from the spec: standardize one feature column to zero mean
and (up to the supplied
square root) unit variance; a zero-variance column is left centered. -/
def standardizeColumn (sq : ℚ → ℚ) (col : List ℚ) : List ℚ :=
  let m := npMean col
  let s := sq (npVariance col)
  let scale := if s = 0 then 1 else s
  col.map (fun x => (x - m) / scale)

/-- Modelled from the spec: the standardized 2-D feature points
(CCU value, time index). -/
def lofPoints (sq : ℚ → ℚ) (l : List ℚ) : List (ℚ × ℚ) :=
  (standardizeColumn sq l).zip
    (standardizeColumn sq ((List.range l.length).map (fun i => (i : ℚ))))

/-- Euclidean distance between two feature points, via the supplied square
root. -/
def lofDist (sq : ℚ → ℚ) (pts : List (ℚ × ℚ)) (i j : ℕ) : ℚ :=
  sq (((pts.getD i (0, 0)).1 - (pts.getD j (0, 0)).1) *
        ((pts.getD i (0, 0)).1 - (pts.getD j (0, 0)).1) +
      ((pts.getD i (0, 0)).2 - (pts.getD j (0, 0)).2) *
        ((pts.getD i (0, 0)).2 - (pts.getD j (0, 0)).2))

/-- The `k`-distance of point `i`: the `k`-th smallest distance from `i` to
another point. -/
def lofKdist (sq : ℚ → ℚ) (pts : List (ℚ × ℚ)) (k i : ℕ) : ℚ :=
  (sortQ (((List.range pts.length).filter (fun j => decide (j ≠ i))).map
    (lofDist sq pts i))).getD (k - 1) 0

/-- All `k`-distances, as a list indexed by point. -/
def lofKdists (sq : ℚ → ℚ) (pts : List (ℚ × ℚ)) (k : ℕ) : List ℚ :=
  (List.range pts.length).map (lofKdist sq pts k)

/-- The `k`-distance neighbourhood of point `i`, given the precomputed
`k`-distance list. -/
def lofNeighbors (sq : ℚ → ℚ) (pts : List (ℚ × ℚ)) (kd : List ℚ) (i : ℕ) :
    List ℕ :=
  (List.range pts.length).filter (fun j =>
    decide (j ≠ i ∧ lofDist sq pts i j ≤ kd.getD i 0))

/-- Local reachability densities: the inverse mean reachability distance
`max(kdist(j), d(i, j))` over the neighbourhood of each point. -/
def lofLrds (sq : ℚ → ℚ) (pts : List (ℚ × ℚ)) (kd : List ℚ) : List ℚ :=
  (List.range pts.length).map (fun i =>
    let nb := lofNeighbors sq pts kd i
    ((nb.length : ℚ)) /
      (nb.map (fun j => max (kd.getD j 0) (lofDist sq pts i j))).sum)

/-- LOF scores: the mean ratio of each neighbour's local reachability
density to the point's own. -/
def lofScores (sq : ℚ → ℚ) (pts : List (ℚ × ℚ)) (kd lrd : List ℚ) : List ℚ :=
  (List.range pts.length).map (fun i =>
    let nb := lofNeighbors sq pts kd i
    (nb.map (fun j => lrd.getD j 0 / lrd.getD i 0)).sum / (nb.length : ℚ))

/-- The negative outlier factors (sklearn's `negative_outlier_factor_`). -/
def lofNegFactors (sq : ℚ → ℚ) (l : List ℚ) (k : ℕ) : List ℚ :=
  let pts := lofPoints sq l
  let kd := lofKdists sq pts (min k (l.length - 1))
  let lrd := lofLrds sq pts kd
  (lofScores sq pts kd lrd).map (fun s => -s)

/-- Modelled from the spec: `MLService._detect_anomalies_lof`, the
indices labeled outliers, i.e. whose negative outlier factor lies strictly
below the contamination-percentile of all negative outlier factors. -/
def detectAnomaliesLof (sq : ℚ → ℚ) (l : List ℚ) (nNeighbors : ℕ := 20)
    (contamination : ℚ := 1/20) : List ℕ :=
  if l.length < 2 then []
  else
    let negFactors := lofNegFactors sq l nNeighbors
    let offset := npPercentile negFactors (100 * contamination)
    (List.range l.length).filter (fun i =>
      decide (negFactors.getD i 0 < offset))

/-! ## Hybrid spike detector (`_detect_anomalies_hybrid`) -/

/-- The three sub-detectors, as fallible functions from a series to flagged
indices: the Python methods can raise (e.g. library errors on degenerate
input), which the hybrid's `try/except` turns into zero votes.  The hybrid
and the service wrapper are stated for arbitrary detectors; `realDetectors`
instantiates them with the models above. -/
structure Detectors where
  stl : List ℚ → Except String (List ℕ)
  peaks : List ℚ → Except String (List ℕ)
  lof : List ℚ → Except String (List ℕ)

/-- The service's concrete detector ensemble. -/
def realDetectors (sq : ℚ → ℚ) : Detectors where
  stl := fun l => .ok (detectAnomaliesStl l 48)
  peaks := fun l => .ok (detectAnomaliesPeaks l 90 6)
  lof := fun l => .ok (detectAnomaliesLof sq l 20 (1/20))

/-- The `try/except` around each sub-detector: an error contributes no
flagged indices. -/
def flagsOf (r : Except String (List ℕ)) : List ℕ :=
  match r with
  | .ok l => l
  | .error _ => []

/-- One grouped spike event as built inside the hybrid detector. -/
structure SpikeDetail where
  peak_index : ℤ
  original_index : ℕ
  peak_ccu : ℤ
  spike_magnitude : ℚ
  votes : ℕ
  spike_duration_indices : ℕ
  methods_agreed : List String
deriving DecidableEq

/-- The `map_scale` diagnostics record. -/
structure MapScale where
  mean_ccu : ℚ
  max_ccu : ℤ
  min_spike_threshold : ℚ
  is_small_map : Bool
deriving DecidableEq

/-- The `historical_context` diagnostics record. -/
structure HistContext where
  using_historical : Bool
  total_data_points : ℕ
  recent_data_points : ℕ
deriving DecidableEq

/-- The dictionary returned by `_detect_anomalies_hybrid`.  The early
return taken when no point reaches consensus carries no `map_scale` and no
`historical_context` key, modelled as `none`. -/
structure HybridResult where
  spike_indices : List ℤ
  spike_details : List SpikeDetail
  num_spikes : ℕ
  method_results : List (String × List ℕ)
  votes : List ℕ
  map_scale : Option MapScale
  historical_context : Option HistContext
deriving DecidableEq

/-- The scale-aware minimum spike magnitude: tiny maps (peak CCU < 20)
need `max(10, 2 × mean)`, small maps (peak CCU < 50) need
`max(15, 1.5 × mean)`, larger maps need `max(20, 0.25 × mean)`. -/
def minSpikeMagnitude (ccu : List ℚ) : ℚ :=
  let meanCcu := npMean ccu
  let maxCcu := npMax ccu
  if maxCcu < 20 then max 10 (meanCcu * 2)
  else if maxCcu < 50 then max 15 (meanCcu * (3/2))
  else max 20 (meanCcu * (1/4))

/-- The per-sample vote counts: one vote per occurrence of the sample index
in a sub-detector's flag list. -/
def voteCounts (n : ℕ) (sFlags pFlags lFlags : List ℕ) : List ℕ :=
  (List.range n).map (fun i => (sFlags ++ pFlags ++ lFlags).count i)

/-- The consensus indices: samples with at least `minVotes` votes, in
ascending order (`np.where`). -/
def consensusIndices (minVotes : ℕ) (votesArr : List ℕ) : List ℕ :=
  (List.range votesArr.length).filter (fun i =>
    decide (minVotes ≤ votesArr.getD i 0))

/-- The grouping loop: a consensus index within `gw` samples of the last
index of the current group joins it, otherwise it opens a new group. -/
def groupGo (gw : ℕ) (cur : List ℕ) : List ℕ → List (List ℕ)
  | [] => [cur]
  | x :: xs =>
    if (x : ℤ) - (cur.getLastD 0 : ℤ) ≤ (gw : ℤ) then
      groupGo gw (cur ++ [x]) xs
    else
      cur :: groupGo gw [x] xs

/-- Group consecutive/nearby consensus indices into spike events. -/
def groupIndices (gw : ℕ) : List ℕ → List (List ℕ)
  | [] => []
  | x :: xs => groupGo gw [x] xs

/-- Build the spike event of one group, or discard it: the representative
point is the group member of maximum CCU (Python's `max(group, key=...)`);
the event is dropped if its peak lies before the recent window (when
`focusRecent`) or if its magnitude over the mean falls below the
scale-aware minimum. -/
def detailOfGroup (ccu : List ℚ) (meanCcu minMag : ℚ) (votesArr : List ℕ)
    (methodResults : List (String × List ℕ)) (focusRecent : Bool)
    (recentCount : ℕ) (recentStart : ℤ) (g : List ℕ) : Option SpikeDetail :=
  let peakIdx := argmaxKey (fun i => ccu.getD i 0) g
  let peakCcu := ccu.getD peakIdx 0
  if focusRecent ∧ 0 < recentCount ∧ (peakIdx : ℤ) < recentStart then none
  else if peakCcu - meanCcu < minMag then none
  else
    let displayIdx : ℤ := if focusRecent then (peakIdx : ℤ) - recentStart
      else (peakIdx : ℤ)
    some
      { peak_index := displayIdx
        original_index := peakIdx
        peak_ccu := truncQ peakCcu
        spike_magnitude := round1 (peakCcu - meanCcu)
        votes := votesArr.getD peakIdx 0
        spike_duration_indices := g.length
        methods_agreed :=
          (methodResults.filter (fun mr => mr.2.any (fun i => g.contains i))).map
            (fun mr => mr.1) }

/-- The per-sample vote array computed by the hybrid detector (errors
swallowed as zero votes). -/
def hybridVotes (D : Detectors) (ccu : List ℚ) : List ℕ :=
  voteCounts ccu.length (flagsOf (D.stl ccu)) (flagsOf (D.peaks ccu))
    (flagsOf (D.lof ccu))

/-- The per-method flagged-index dictionary, in insertion order. -/
def hybridMethodResults (D : Detectors) (ccu : List ℚ) :
    List (String × List ℕ) :=
  [("STL", flagsOf (D.stl ccu)), ("peak_prominence", flagsOf (D.peaks ccu)),
    ("LOF", flagsOf (D.lof ccu))]

/-- The consensus indices of the hybrid detector. -/
def hybridConsensus (D : Detectors) (ccu : List ℚ) (minVotes : ℕ) : List ℕ :=
  consensusIndices minVotes (hybridVotes D ccu)

/-- The start of the recent window (0 when not focusing on recent data). -/
def hybridRecentStart (n : ℕ) (focusRecent : Bool) (recentCount : ℕ) : ℤ :=
  if focusRecent ∧ 0 < recentCount then (n : ℤ) - (recentCount : ℤ) else 0

/-- The consensus indices grouped into candidate spike events. -/
def hybridGroups (D : Detectors) (ccu : List ℚ) (minVotes gw : ℕ) :
    List (List ℕ) :=
  groupIndices gw (hybridConsensus D ccu minVotes)

/-- The surviving spike events of the hybrid detector. -/
def hybridDetails (D : Detectors) (ccu : List ℚ) (minVotes gw : ℕ)
    (focusRecent : Bool) (recentCount : ℕ) : List SpikeDetail :=
  (hybridGroups D ccu minVotes gw).filterMap
    (detailOfGroup ccu (npMean ccu) (minSpikeMagnitude ccu)
      (hybridVotes D ccu) (hybridMethodResults D ccu) focusRecent
      recentCount (hybridRecentStart ccu.length focusRecent recentCount))

/-- Embedding of `MLService._detect_anomalies_hybrid`: run the three sub-detectors
(errors swallowed as zero votes), tally votes, keep consensus samples,
group them into events, keep each group's true CCU peak, and filter events
by recent-window membership and scale-aware magnitude. -/
def detectAnomaliesHybrid (D : Detectors) (ccu : List ℚ) (minVotes : ℕ := 2)
    (gw : ℕ := 6) (focusRecent : Bool := false) (recentCount : ℕ := 0) :
    HybridResult :=
  let n := ccu.length
  let meanCcu := npMean ccu
  let maxCcu := npMax ccu
  let minMag := minSpikeMagnitude ccu
  let methodResults := hybridMethodResults D ccu
  let votesArr := hybridVotes D ccu
  let consensus := hybridConsensus D ccu minVotes
  if consensus.isEmpty then
    { spike_indices := []
      spike_details := []
      num_spikes := 0
      method_results := methodResults
      votes := votesArr
      map_scale := none
      historical_context := none }
  else
    let details := hybridDetails D ccu minVotes gw focusRecent recentCount
    { spike_indices := details.map (fun d => d.peak_index)
      spike_details := details
      num_spikes := (details.map (fun d => d.peak_index)).length
      method_results := methodResults
      votes := votesArr
      map_scale := some
        { mean_ccu := round1 meanCcu
          max_ccu := truncQ maxCcu
          min_spike_threshold := round1 minMag
          is_small_map := decide (maxCcu < 50) }
      historical_context := some
        { using_historical := focusRecent
          total_data_points := n
          recent_data_points := if focusRecent then recentCount else n } }

/-! ## Service wrapper (`detect_anomalies`) -/

/-- The fetched map payload, reduced to the fields the anomaly path reads.
(The name, cache-provenance and date-range fields only feed response
strings and timestamp rendering, which are not modelled.) -/
structure MapData where
  stats_7d : Stats7d
deriving DecidableEq

/-- One entry of the response's `spike_details` list (the approximate
wall-clock timestamp strings are not modelled). -/
structure OutDetail where
  timestamp_index : ℤ
  ccu : ℤ
  votes : ℕ
  methods_agreed : List String
deriving DecidableEq

/-- The anomaly-detection response record, reduced to the modelled
fields. -/
structure AnomalyResult where
  anomaly_score : ℚ
  is_anomalous : Bool
  num_spikes : ℕ
  spike_details : List OutDetail
  map_scale : Option MapScale
  using_historical_data : Bool
  historical_days : ℕ
deriving DecidableEq

/-- The anomaly score heuristic: `-0.5 - (avg_votes / 3) * 0.5` over the
surviving events when any exist, else the fixed "normal" value `0.1`. -/
def scoreOfAvgVotes (avg : ℚ) : ℚ := -(1/2) - avg / 3 * (1/2)

/-- The anomaly score of a detection outcome. -/
def anomalyScore (details : List SpikeDetail) : ℚ :=
  if 0 < details.length then
    scoreOfAvgVotes (npMean (details.map (fun s => (s.votes : ℚ))))
  else 1/10

/-- Projection of an internal spike event onto a response entry. -/
def outDetail (s : SpikeDetail) : OutDetail :=
  { timestamp_index := s.peak_index
    ccu := s.peak_ccu
    votes := s.votes
    methods_agreed := s.methods_agreed }

/-- Whether the historical series replaces the 7-day series: it must be
nonempty (truthy) and more than twice as long. -/
def usesHistorical (hist ccu : List ℚ) : Bool :=
  !hist.isEmpty && decide (2 * ccu.length < hist.length)

/-- Embedding of `MLService.detect_anomalies`: fails when the map cannot be fetched,
when the payload carries no successful time series, or when the series has
fewer than 50 samples; otherwise runs the hybrid detector (on the longer
historical series when one is available, focusing reports on the recent
window) and assembles the response, truncating `spike_details` to the
first 10 events. -/
def detectAnomalies (D : Detectors) (md : Option MapData) (hist : List ℚ)
    (histDays : ℕ) : Except String AnomalyResult :=
  match md with
  | none => .error "Map not found"
  | some m =>
    if m.stats_7d.success then
      let ccu := m.stats_7d.data_points
      if ccu.length < 50 then .error "Insufficient data for anomaly detection"
      else
        let usingHist := usesHistorical hist ccu
        let series := if usingHist then hist else ccu
        let hres := detectAnomaliesHybrid D series 2 6 usingHist ccu.length
        .ok
          { anomaly_score := anomalyScore hres.spike_details
            is_anomalous := decide (0 < hres.num_spikes)
            num_spikes := hres.num_spikes
            spike_details := (hres.spike_details.map outDetail).take 10
            map_scale := hres.map_scale
            using_historical_data := usingHist
            historical_days := if usingHist then histDays else 0 }
    else .error "No time-series data available"

/-- Newton iteration step for the integer square root, with explicit fuel
so that the recursion is structural. -/
def isqrtGo (n : ℕ) : ℕ → ℕ → ℕ
  | 0, g => g
  | fuel + 1, g =>
    let g1 := (g + n / g) / 2
    if g1 < g then isqrtGo n fuel g1 else g

/-- Floor integer square root by Newton iteration (64 rounds are enough
for any input handled here). -/
def isqrt (n : ℕ) : ℕ := if n ≤ 1 then n else isqrtGo n 64 (n / 2 + 1)

/-- The floor-based rational square root used to instantiate `sq` on
concrete inputs; it is exact on perfect squares of rationals (numerator
and denominator of the reduced form both perfect squares), which covers
every square root taken in the concrete evaluations below. -/
def ratSqrt (q : ℚ) : ℚ := Rat.divInt (isqrt q.num.natAbs) (isqrt q.den)

/-- A default spike event, used only to project the head of a concrete
result list in closed statements. -/
def defaultSpike : SpikeDetail := ⟨0, 0, 0, 0, 0, 0, []⟩

/-- A default response record, used only to project concrete `Except`
results in closed statements. -/
def defaultResult : AnomalyResult := ⟨0, false, 0, [], none, false, 0⟩

/-- Unwrap an `Except` value against a default. -/
def okOr (d : AnomalyResult) : Except String AnomalyResult → AnomalyResult
  | .ok r => r
  | .error _ => d

/-! ## Concrete inputs for witnesses and counterexamples -/

/-- A ten-sample series with a spike at the front. -/
def ccu3 : List ℚ := [100, 90, 0, 0, 0, 0, 0, 0, 0, 0]

/-- Detectors where STL and peak-prominence both flag sample 0. -/
def D3 : Detectors :=
  ⟨fun _ => .ok [0], fun _ => .ok [0], fun _ => .ok []⟩

/-- A ten-sample series with a two-sample spike at indices 2 and 3. -/
def ccu4 : List ℚ := [0, 0, 50, 80, 0, 0, 0, 0, 0, 0]

/-- Detectors flagging the two adjacent spike samples with two votes
each. -/
def D4 : Detectors :=
  ⟨fun _ => .ok [2, 3], fun _ => .ok [3], fun _ => .ok [2]⟩

/-- A thirty-sample series whose only spike (index 25) lies in the last
ten samples. -/
def ccu5 : List ℚ := (List.range 30).map (fun i => if i = 25 then 900 else 0)

/-- Detectors where STL and peak-prominence both flag sample 25. -/
def D5 : Detectors :=
  ⟨fun _ => .ok [25], fun _ => .ok [25], fun _ => .ok []⟩

/-- A ten-sample series whose group peak is sample 0. -/
def ccu8 : List ℚ := [100, 90, 0, 0, 0, 0, 0, 0, 0, 0]

/-- Detectors where STL flags samples 0 and 1, peak-prominence flags only
sample 0 and LOF flags only sample 1: samples 0 and 1 both reach two
votes, and all three methods flag some sample of the group `[0, 1]`, but
only two methods flag the peak sample 0. -/
def D8 : Detectors :=
  ⟨fun _ => .ok [0, 1], fun _ => .ok [0], fun _ => .ok [1]⟩

/-- Detectors returning no flags at all. -/
def D9 : Detectors :=
  ⟨fun _ => .ok [], fun _ => .ok [], fun _ => .ok []⟩

/-- A successful 50-sample constant payload. -/
def m9 : MapData := ⟨⟨true, List.replicate 50 0⟩⟩

/-- A 71-sample series with spikes of height 1000 at every multiple of
7. -/
def ccu10 : List ℚ := (List.range 71).map (fun i => if i % 7 = 0 then 1000 else 0)

/-- The eleven spike positions of `ccu10`. -/
def spikes11 : List ℕ := (List.range 11).map (fun j => j * 7)

/-- Detectors where STL and peak-prominence flag all eleven spikes. -/
def D10 : Detectors :=
  ⟨fun _ => .ok spikes11, fun _ => .ok spikes11, fun _ => .ok []⟩

/-- The successful payload carrying `ccu10`. -/
def m10 : MapData := ⟨⟨true, ccu10⟩⟩

/-- The first reported event of the `D3`/`ccu3` run. -/
def ev3 : SpikeDetail :=
  (detectAnomaliesHybrid D3 ccu3 2 6 false 0).spike_details.headD defaultSpike

/-- The first reported event of the `D4`/`ccu4` run. -/
def ev4 : SpikeDetail :=
  (detectAnomaliesHybrid D4 ccu4 2 6 false 0).spike_details.headD defaultSpike

/-- The first reported event of the `D5`/`ccu5` run with focus on the last
10 samples. -/
def ev5 : SpikeDetail :=
  (detectAnomaliesHybrid D5 ccu5 2 6 true 10).spike_details.headD defaultSpike

/-- The first reported event of the `D8`/`ccu8` run. -/
def ev8 : SpikeDetail :=
  (detectAnomaliesHybrid D8 ccu8 2 6 false 0).spike_details.headD defaultSpike

/-- A constant 25-sample series. -/
def series25 : List ℚ := List.replicate 25 5


/-! ## General lemmas -/

theorem getD_replicate {α : Type} (c d : α) (n i : ℕ) :
    (List.replicate n c).getD i d = if i < n then c else d := by
  induction n generalizing i with
  | zero => simp [List.getD]
  | succ m ih =>
    cases i with
    | zero => simp [List.replicate, List.getD]
    | succ j =>
      simp only [List.replicate, List.getD, List.get?, Nat.succ_lt_succ_iff]
      simpa [List.getD] using ih j

theorem npMean_replicate (c : ℚ) (n : ℕ) (hn : n ≠ 0) :
    npMean (List.replicate n c) = c := by
  have hne : (n:ℚ) ≠ 0 := by exact_mod_cast hn
  simp [npMean, List.sum_replicate, nsmul_eq_mul]
  field_simp

theorem npMean_replicate_zero (n : ℕ) : npMean (List.replicate n (0 : ℚ)) = 0 := by
  simp [npMean, List.sum_replicate]

theorem npMean_nonneg (l : List ℚ) (h : ∀ x ∈ l, 0 ≤ x) : 0 ≤ npMean l := by
  unfold npMean
  apply div_nonneg (List.sum_nonneg h) (by positivity)

/-! ## C1 -/

/-- C1, counterexample: at `baseline_ccu = 10.7` and `trend_slope = 0` the
day-1 forecast value produced by the code is `10` (truncation toward
zero), while the claimed formula `max(0, round(baseline_ccu * (1 +
daily_rate * day)))` yields `11`, so the claim as stated is false. -/
theorem C1_round_counterexample :
    predictedDayCcu (107/10) 0 1 = 10 ∧
    max 0 (pyRound ((107/10 : ℚ) * (1 + dailyTrendRate 0 * (1 : ℚ)))) = 11 := by
  with_unfolding_all decide

/-- C1, amended: for every input, the 7-day forecast sets
`daily_rate = trend_slope / 100 / 7` and, for each day `d` in 1..7,
`predicted_ccu[d] = max(0, trunc(baseline_ccu * (1 + daily_rate * d)))`
where `trunc` is Python's `int` cast (truncation toward zero, not
rounding to nearest); in particular, when `trend_slope = 0`, all 7 daily
`predicted_ccu` values equal `max(0, trunc(baseline_ccu))`. -/
theorem C1_daily_forecast_truncates (baseline_ccu trend_slope mae : ℚ) :
    (dailyForecast baseline_ccu trend_slope mae).length = 7 ∧
    ∀ f ∈ dailyForecast baseline_ccu trend_slope mae,
      1 ≤ f.day ∧ f.day ≤ 7 ∧
      f.predicted_ccu =
        max 0 (truncQ (baseline_ccu * (1 + trend_slope / 100 / 7 * (f.day : ℚ)))) ∧
      (trend_slope = 0 → f.predicted_ccu = max 0 (truncQ baseline_ccu)) := by
  constructor
  · simp [dailyForecast]
  · intro f hf
    simp only [dailyForecast, List.mem_map, List.mem_range] at hf
    obtain ⟨i, hi, rfl⟩ := hf
    refine ⟨by simp [dayForecast], by simp [dayForecast]; omega, ?_, ?_⟩
    · simp [dayForecast, predictedDayCcu, dailyTrendRate]
    · intro h0
      subst h0
      simp [dayForecast, predictedDayCcu, dailyTrendRate]

/-- C1, witness: the amended theorem applied to the forecast of day 1 at
baseline 10.7 and zero slope. -/
theorem C1_daily_forecast_truncates_witness :
    (dayForecast (107/10) 0 46 1).predicted_ccu = max 0 (truncQ ((107:ℚ)/10)) ∧
    (dayForecast (107/10) 0 46 1).predicted_ccu = 10 := by
  have hmem : dayForecast (107/10) 0 46 1 ∈ dailyForecast (107/10) 0 46 := by
    simp only [dailyForecast, List.mem_map, List.mem_range]
    exact ⟨0, by norm_num, rfl⟩
  have h := ((C1_daily_forecast_truncates (107/10) 0 46).2 _ hmem).2.2.2 rfl
  refine ⟨h, ?_⟩
  rw [h]
  with_unfolding_all decide

/-! ## C6 -/

/-- C6: for every payload whose series has fewer than 10 samples, the
trend feature computation returns the all-zero feature bundle (the
embedding is a total function, so no exception is possible). -/
theorem C6_short_series_zero (sq : ℚ → ℚ) (s : Stats7d)
    (h : s.data_points.length < 10) :
    calculateTrendFeatures sq s = zeroFeatures := by
  simp only [calculateTrendFeatures]
  split_ifs with h1
  · rfl
  · rfl

/-- C6, witness: a three-sample series yields the all-zero features. -/
theorem C6_short_series_zero_witness :
    calculateTrendFeatures (fun q => q) ⟨true, [1, 2, 3]⟩ = zeroFeatures :=
  C6_short_series_zero _ _ (by simp)

/-! ## C7 -/

/-- C7: an error inside any sub-detector is swallowed and equivalent to
that detector returning no flagged indices (zero votes), never aborting
the hybrid call; and the overall `detect_anomalies` call succeeds exactly
when the map was fetched, its time-series payload is marked successful,
and the series has at least 50 samples. -/
theorem C7_failure_semantics :
    (∀ (D : Detectors) (ccu : List ℚ) (mv gw : ℕ) (fr : Bool) (rc : ℕ),
      detectAnomaliesHybrid D ccu mv gw fr rc =
        detectAnomaliesHybrid
          ⟨fun l => .ok (flagsOf (D.stl l)), fun l => .ok (flagsOf (D.peaks l)),
            fun l => .ok (flagsOf (D.lof l))⟩ ccu mv gw fr rc) ∧
    (∀ (D : Detectors) (md : Option MapData) (hist : List ℚ) (hd : ℕ),
      (detectAnomalies D md hist hd).isOk =
        match md with
        | none => false
        | some m =>
          m.stats_7d.success && !(decide (m.stats_7d.data_points.length < 50))) := by
  constructor
  · intro D ccu mv gw fr rc
    rfl
  · intro D md hist hd
    cases md with
    | none => rfl
    | some m =>
      by_cases hs : m.stats_7d.success
      · by_cases hl : m.stats_7d.data_points.length < 50
        · simp [detectAnomalies, hs, hl, Except.isOk, Except.toBool]
        · simp [detectAnomalies, hs, hl, Except.isOk, Except.toBool]
      · simp [detectAnomalies, hs, Except.isOk, Except.toBool]

/-! ## Structural lemmas about the hybrid pipeline -/

theorem getD_map_range {α : Type} (f : ℕ → α) (n i : ℕ) (d : α) (h : i < n) :
    ((List.range n).map f).getD i d = f i := by
  rw [List.getD_eq_getElem?_getD, List.getElem?_map, List.getElem?_range h]
  rfl

theorem voteCounts_length (n : ℕ) (s p l : List ℕ) :
    (voteCounts n s p l).length = n := by
  simp [voteCounts]

theorem voteCounts_getD (n : ℕ) (s p l : List ℕ) (i : ℕ) (h : i < n) :
    (voteCounts n s p l).getD i 0 = (s ++ p ++ l).count i :=
  getD_map_range _ n i 0 h

theorem mem_consensusIndices (mv : ℕ) (votesArr : List ℕ) (i : ℕ) :
    i ∈ consensusIndices mv votesArr ↔
      i < votesArr.length ∧ mv ≤ votesArr.getD i 0 := by
  simp [consensusIndices, List.mem_filter, List.mem_range]

theorem groupGo_flatten (gw : ℕ) (cur xs : List ℕ) :
    (groupGo gw cur xs).flatten = cur ++ xs := by
  induction xs generalizing cur with
  | nil => simp [groupGo]
  | cons x xs ih =>
    unfold groupGo
    split
    · rw [ih]
      simp
    · simp [List.flatten, ih]

theorem groupIndices_flatten (gw : ℕ) (l : List ℕ) :
    (groupIndices gw l).flatten = l := by
  cases l with
  | nil => rfl
  | cons x xs =>
    unfold groupIndices
    rw [groupGo_flatten]
    rfl

theorem groupGo_ne_nil (gw : ℕ) (xs : List ℕ) :
    ∀ cur, cur ≠ [] → ∀ g ∈ groupGo gw cur xs, g ≠ [] := by
  induction xs with
  | nil =>
    intro cur hcur g hg
    simp only [groupGo, List.mem_singleton] at hg
    exact hg ▸ hcur
  | cons x xs ih =>
    intro cur hcur g hg
    unfold groupGo at hg
    split at hg
    · exact ih (cur ++ [x]) (by simp) g hg
    · rcases List.mem_cons.mp hg with rfl | hg'
      · exact hcur
      · exact ih [x] (by simp) g hg'

theorem groupIndices_ne_nil (gw : ℕ) (l : List ℕ) :
    ∀ g ∈ groupIndices gw l, g ≠ [] := by
  cases l with
  | nil => intro g hg; simp [groupIndices] at hg
  | cons x xs => exact groupGo_ne_nil gw xs [x] (by simp)

theorem groupGo_chain (gw : ℕ) (xs : List ℕ) :
    ∀ cur : List ℕ, cur ≠ [] →
      List.Chain' (fun a b : ℕ => (b : ℤ) - (a : ℤ) ≤ (gw : ℤ)) cur →
      ∀ g ∈ groupGo gw cur xs,
        List.Chain' (fun a b : ℕ => (b : ℤ) - (a : ℤ) ≤ (gw : ℤ)) g := by
  induction xs with
  | nil =>
    intro cur hcur hch g hg
    simp only [groupGo, List.mem_singleton] at hg
    exact hg ▸ hch
  | cons x xs ih =>
    intro cur hcur hch g hg
    unfold groupGo at hg
    split_ifs at hg with hcond
    · refine ih (cur ++ [x]) (by simp) ?_ g hg
      rw [List.chain'_append]
      refine ⟨hch, List.chain'_singleton x, ?_⟩
      intro a ha b hb
      simp only [List.head?_cons, Option.mem_def, Option.some.injEq] at hb
      subst hb
      have hlast : cur.getLastD 0 = a := by
        rw [List.getLastD_eq_getLast?]
        simp only [Option.mem_def] at ha
        rw [ha]
        rfl
      rw [hlast] at hcond
      exact hcond
    · rcases List.mem_cons.mp hg with rfl | hg'
      · exact hch
      · exact ih [x] (by simp) (List.chain'_singleton x) g hg'

theorem groupIndices_chain (gw : ℕ) (l : List ℕ) :
    ∀ g ∈ groupIndices gw l,
      List.Chain' (fun a b : ℕ => (b : ℤ) - (a : ℤ) ≤ (gw : ℤ)) g := by
  cases l with
  | nil => intro g hg; simp [groupIndices] at hg
  | cons x xs =>
    exact groupGo_chain gw xs [x] (by simp) (List.chain'_singleton x)

theorem groupGo_merge (gw : ℕ) (xs : List ℕ) :
    ∀ cur : List ℕ, cur ≠ [] → ∀ (p q : List ℕ) (a b : ℕ),
      cur ++ xs = p ++ a :: b :: q → (b : ℤ) - (a : ℤ) ≤ (gw : ℤ) →
      ∃ g ∈ groupGo gw cur xs, a ∈ g ∧ b ∈ g := by
  induction xs with
  | nil =>
    intro cur hcur p q a b heq hle
    rw [List.append_nil] at heq
    subst heq
    exact ⟨p ++ a :: b :: q, by simp [groupGo], by simp, by simp⟩
  | cons x xs ih =>
    intro cur hcur p q a b heq hle
    unfold groupGo
    split_ifs with hcond
    · refine ih (cur ++ [x]) (by simp) p q a b ?_ hle
      rw [List.append_assoc, List.singleton_append]
      exact heq
    · rcases List.append_eq_append_iff.mp heq with ⟨t, hp, hxxs⟩ | ⟨t, hcur', habq⟩
      · obtain ⟨g, hg, hag, hbg⟩ :=
          ih [x] (by simp) t q a b (by simpa using hxxs) hle
        exact ⟨g, List.mem_cons_of_mem cur hg, hag, hbg⟩
      · match t, habq with
        | [], habq =>
          obtain ⟨g, hg, hag, hbg⟩ :=
            ih [x] (by simp) [] q a b (by simpa using habq.symm) hle
          exact ⟨g, List.mem_cons_of_mem cur hg, hag, hbg⟩
        | [a0], habq =>
          exfalso
          simp only [List.singleton_append, List.cons.injEq] at habq
          obtain ⟨ha0, hbx, hq⟩ := habq
          have hlast : cur.getLastD 0 = a := by
            rw [hcur', ha0]
            exact List.getLastD_concat _ _ _
          rw [hlast, ← hbx] at hcond
          exact hcond hle
        | a0 :: b0 :: t', habq =>
          simp only [List.cons_append, List.cons.injEq] at habq
          obtain ⟨ha0, hb0, hq⟩ := habq
          refine ⟨cur, List.mem_cons_self cur _, ?_, ?_⟩
          · rw [hcur', ha0]
            simp
          · rw [hcur', hb0]
            simp

theorem groupIndices_merge (gw : ℕ) (l : List ℕ) :
    ∀ (p q : List ℕ) (a b : ℕ), l = p ++ a :: b :: q →
      (b : ℤ) - (a : ℤ) ≤ (gw : ℤ) →
      ∃ g ∈ groupIndices gw l, a ∈ g ∧ b ∈ g := by
  intro p q a b heq hle
  cases l with
  | nil => simp at heq
  | cons x xs =>
    exact groupGo_merge gw xs [x] (by simp) p q a b (by simpa using heq.symm ▸ rfl) hle

theorem foldl_argmax_mem (f : ℕ → ℚ) (xs : List ℕ) (b : ℕ) :
    xs.foldl (fun b i => if f b < f i then i else b) b = b ∨
      xs.foldl (fun b i => if f b < f i then i else b) b ∈ xs := by
  induction xs generalizing b with
  | nil => exact Or.inl rfl
  | cons x xs ih =>
    simp only [List.foldl_cons]
    rcases ih (if f b < f x then x else b) with h | h
    · rw [h]
      split_ifs with hx
      · exact Or.inr (List.mem_cons_self _ _)
      · exact Or.inl rfl
    · exact Or.inr (List.mem_cons_of_mem _ h)

theorem foldl_argmax_le (f : ℕ → ℚ) (xs : List ℕ) (b : ℕ) :
    f b ≤ f (xs.foldl (fun b i => if f b < f i then i else b) b) ∧
      ∀ i ∈ xs, f i ≤ f (xs.foldl (fun b i => if f b < f i then i else b) b) := by
  induction xs generalizing b with
  | nil => exact ⟨le_refl _, by simp⟩
  | cons x xs ih =>
    simp only [List.foldl_cons]
    obtain ⟨h1, h2⟩ := ih (if f b < f x then x else b)
    have hb : f b ≤ f (if f b < f x then x else b) := by
      split_ifs with hx
      · exact le_of_lt hx
      · exact le_refl _
    have hx : f x ≤ f (if f b < f x then x else b) := by
      split_ifs with hx
      · exact le_refl _
      · exact le_of_not_lt hx
    refine ⟨le_trans hb h1, ?_⟩
    intro i hi
    rcases List.mem_cons.mp hi with rfl | hi'
    · exact le_trans hx h1
    · exact h2 i hi'

theorem argmaxKey_mem (f : ℕ → ℚ) (g : List ℕ) (h : g ≠ []) :
    argmaxKey f g ∈ g := by
  cases g with
  | nil => exact absurd rfl h
  | cons x xs =>
    simp only [argmaxKey]
    rcases foldl_argmax_mem f xs x with h' | h'
    · rw [h']
      exact List.mem_cons_self _ _
    · exact List.mem_cons_of_mem _ h'

theorem argmaxKey_le (f : ℕ → ℚ) (g : List ℕ) :
    ∀ i ∈ g, f i ≤ f (argmaxKey f g) := by
  cases g with
  | nil => simp
  | cons x xs =>
    intro i hi
    simp only [argmaxKey]
    rcases List.mem_cons.mp hi with rfl | hi'
    · exact (foldl_argmax_le f xs i).1
    · exact (foldl_argmax_le f xs x).2 i hi'

theorem hybrid_spike_details (D : Detectors) (ccu : List ℚ) (mv gw : ℕ)
    (fr : Bool) (rc : ℕ) :
    (detectAnomaliesHybrid D ccu mv gw fr rc).spike_details =
      hybridDetails D ccu mv gw fr rc := by
  simp only [detectAnomaliesHybrid]
  by_cases h : (hybridConsensus D ccu mv).isEmpty
  · rw [if_pos h]
    show ([] : List SpikeDetail) = hybridDetails D ccu mv gw fr rc
    unfold hybridDetails hybridGroups
    rw [List.isEmpty_iff.mp h]
    rfl
  · rw [if_neg h]

theorem hybrid_num_spikes (D : Detectors) (ccu : List ℚ) (mv gw : ℕ)
    (fr : Bool) (rc : ℕ) :
    (detectAnomaliesHybrid D ccu mv gw fr rc).num_spikes =
      (hybridDetails D ccu mv gw fr rc).length := by
  simp only [detectAnomaliesHybrid]
  by_cases h : (hybridConsensus D ccu mv).isEmpty
  · rw [if_pos h]
    show 0 = (hybridDetails D ccu mv gw fr rc).length
    unfold hybridDetails hybridGroups
    rw [List.isEmpty_iff.mp h]
    rfl
  · rw [if_neg h]
    simp

theorem detailOfGroup_eq_some {ccu : List ℚ} {meanCcu minMag : ℚ}
    {votesArr : List ℕ} {mres : List (String × List ℕ)} {fr : Bool}
    {rc : ℕ} {rs : ℤ} {g : List ℕ} {ev : SpikeDetail}
    (h : detailOfGroup ccu meanCcu minMag votesArr mres fr rc rs g = some ev) :
    ev.original_index = argmaxKey (fun i => ccu.getD i 0) g ∧
    minMag ≤ ccu.getD ev.original_index 0 - meanCcu ∧
    (fr = true → 0 < rc → rs ≤ (ev.original_index : ℤ)) ∧
    ev.peak_index =
      (if fr then (ev.original_index : ℤ) - rs else (ev.original_index : ℤ)) ∧
    ev.peak_ccu = truncQ (ccu.getD ev.original_index 0) ∧
    ev.votes = votesArr.getD ev.original_index 0 ∧
    ev.spike_duration_indices = g.length ∧
    ev.methods_agreed =
      (mres.filter (fun mr => mr.2.any (fun i => g.contains i))).map
        (fun mr => mr.1) := by
  simp only [detailOfGroup] at h
  split at h
  · exact absurd h (by simp)
  · split at h
    · exact absurd h (by simp)
    · rename_i h1 h2
      have hev := Option.some.inj h
      subst hev
      refine ⟨rfl, le_of_not_lt h2, ?_, rfl, rfl, rfl, rfl, rfl⟩
      intro hfr hrc
      by_contra hlt
      exact h1 ⟨hfr, hrc, lt_of_not_le hlt⟩

theorem mem_hybridDetails {D : Detectors} {ccu : List ℚ} {mv gw : ℕ}
    {fr : Bool} {rc : ℕ} {ev : SpikeDetail}
    (hev : ev ∈ (detectAnomaliesHybrid D ccu mv gw fr rc).spike_details) :
    ∃ g ∈ hybridGroups D ccu mv gw,
      detailOfGroup ccu (npMean ccu) (minSpikeMagnitude ccu)
        (hybridVotes D ccu) (hybridMethodResults D ccu) fr rc
        (hybridRecentStart ccu.length fr rc) g = some ev := by
  rw [hybrid_spike_details] at hev
  exact List.mem_filterMap.mp hev

set_option maxHeartbeats 1000000 in
theorem spike_detail_group {D : Detectors} {ccu : List ℚ} {mv gw : ℕ}
    {fr : Bool} {rc : ℕ} {ev : SpikeDetail}
    (hev : ev ∈ (detectAnomaliesHybrid D ccu mv gw fr rc).spike_details) :
    ∃ g ∈ hybridGroups D ccu mv gw,
      g ≠ [] ∧ ev.original_index ∈ g ∧
      (∀ i ∈ g, ccu.getD i 0 ≤ ccu.getD ev.original_index 0) ∧
      ev.original_index ∈ hybridConsensus D ccu mv ∧
      ev.original_index < ccu.length := by
  obtain ⟨g, hg, hsome⟩ := mem_hybridDetails hev
  have hinv := detailOfGroup_eq_some hsome
  have hgne : g ≠ [] := groupIndices_ne_nil gw _ g hg
  have horig : ev.original_index ∈ g := by
    rw [hinv.1]
    exact argmaxKey_mem _ g hgne
  have hcons : ev.original_index ∈ hybridConsensus D ccu mv := by
    rw [← groupIndices_flatten gw (hybridConsensus D ccu mv)]
    exact List.mem_flatten.mpr ⟨g, hg, horig⟩
  have hlt : ev.original_index < ccu.length := by
    have := (mem_consensusIndices mv (hybridVotes D ccu) _).mp hcons
    rw [hybridVotes, voteCounts_length] at this
    exact this.1
  refine ⟨g, hg, hgne, horig, ?_, hcons, hlt⟩
  intro i hi
  rw [hinv.1]
  exact argmaxKey_le (fun j => ccu.getD j 0) g i hi

/-! ## C3 -/

/-- C3: with `mean_ccu` and `max_ccu` computed over the analyzed series,
the minimum spike magnitude is `max(10, mean_ccu * 2)` when
`max_ccu < 20`, `max(15, mean_ccu * 1.5)` when `20 ≤ max_ccu < 50`, and
`max(20, mean_ccu * 0.25)` otherwise; and every grouped spike event in the
output has `peak_ccu - mean_ccu` at least this threshold (events below it
are discarded). -/
theorem C3_scale_aware_filtering :
    (∀ ccu : List ℚ,
      (npMax ccu < 20 → minSpikeMagnitude ccu = max 10 (npMean ccu * 2)) ∧
      (¬ npMax ccu < 20 → npMax ccu < 50 →
        minSpikeMagnitude ccu = max 15 (npMean ccu * (3/2))) ∧
      (¬ npMax ccu < 50 → minSpikeMagnitude ccu = max 20 (npMean ccu * (1/4)))) ∧
    (∀ (D : Detectors) (ccu : List ℚ) (mv gw : ℕ) (fr : Bool) (rc : ℕ),
      ∀ ev ∈ (detectAnomaliesHybrid D ccu mv gw fr rc).spike_details,
        minSpikeMagnitude ccu ≤ ccu.getD ev.original_index 0 - npMean ccu) := by
  constructor
  · intro ccu
    refine ⟨fun h => ?_, fun h1 h2 => ?_, fun h => ?_⟩
    · simp only [minSpikeMagnitude]
      rw [if_pos h]
    · simp only [minSpikeMagnitude]
      rw [if_neg h1, if_pos h2]
    · have h20 : ¬ npMax ccu < 20 := fun hc => h (lt_trans hc (by norm_num))
      simp only [minSpikeMagnitude]
      rw [if_neg h20, if_neg h]
  · intro D ccu mv gw fr rc ev hev
    obtain ⟨g, hg, hsome⟩ := mem_hybridDetails hev
    exact (detailOfGroup_eq_some hsome).2.1

set_option maxRecDepth 4000 in
/-- C3, witness: the scale filter bound applied to the surviving event of
a concrete run. -/
theorem C3_scale_aware_filtering_witness :
    minSpikeMagnitude ccu3 ≤ ccu3.getD ev3.original_index 0 - npMean ccu3 := by
  have hmem : ev3 ∈ (detectAnomaliesHybrid D3 ccu3 2 6 false 0).spike_details := by
    with_unfolding_all decide
  exact C3_scale_aware_filtering.2 D3 ccu3 2 6 false 0 ev3 hmem

/-! ## C4 -/

/-- C4: consensus indices within `grouping_window` samples of the previous
consensus index are merged into a single spike event: whenever a consensus
index `b` immediately follows `a` in the consensus list and `b - a` is at
most the window, both land in the same group (and, conversely, the groups
partition the consensus list with consecutive members of a group at most
the window apart); and each reported event's representative point is the
group member with maximum CCU: its `peak_ccu` is the truncated CCU of an
index of the group that majorizes the whole group. -/
theorem C4_grouping_and_peak :
    (∀ (gw : ℕ) (l : List ℕ),
      (groupIndices gw l).flatten = l ∧
      (∀ (p q : List ℕ) (a b : ℕ), l = p ++ a :: b :: q →
        (b : ℤ) - (a : ℤ) ≤ (gw : ℤ) →
        ∃ g ∈ groupIndices gw l, a ∈ g ∧ b ∈ g) ∧
      ∀ g ∈ groupIndices gw l, g ≠ [] ∧
        List.Chain' (fun a b : ℕ => (b : ℤ) - (a : ℤ) ≤ (gw : ℤ)) g) ∧
    (∀ (D : Detectors) (ccu : List ℚ) (mv gw : ℕ) (fr : Bool) (rc : ℕ),
      ∀ ev ∈ (detectAnomaliesHybrid D ccu mv gw fr rc).spike_details,
        ∃ g ∈ hybridGroups D ccu mv gw,
          ev.original_index ∈ g ∧
          (∀ i ∈ g, ccu.getD i 0 ≤ ccu.getD ev.original_index 0) ∧
          ev.peak_ccu = truncQ (ccu.getD ev.original_index 0) ∧
          ev.spike_duration_indices = g.length) := by
  constructor
  · intro gw l
    exact ⟨groupIndices_flatten gw l, groupIndices_merge gw l, fun g hg =>
      ⟨groupIndices_ne_nil gw l g hg, groupIndices_chain gw l g hg⟩⟩
  · intro D ccu mv gw fr rc ev hev
    obtain ⟨g, hg, hsome⟩ := mem_hybridDetails hev
    have hinv := detailOfGroup_eq_some hsome
    have hgne := groupIndices_ne_nil gw (hybridConsensus D ccu mv) g hg
    refine ⟨g, hg, ?_, ?_, hinv.2.2.2.2.1, hinv.2.2.2.2.2.2.1⟩
    · rw [hinv.1]
      exact argmaxKey_mem _ g hgne
    · intro i hi
      rw [hinv.1]
      exact argmaxKey_le (fun j => ccu.getD j 0) g i hi

set_option maxRecDepth 4000 in
/-- C4, witness: on a concrete run the adjacent consensus indices 2 and 3
(one sample apart, within the window 6) are merged into one group, and the
surviving event has the group/peak structure of its two-sample group. -/
theorem C4_grouping_and_peak_witness :
    (∃ g ∈ groupIndices 6 (hybridConsensus D4 ccu4 2), 2 ∈ g ∧ 3 ∈ g) ∧
    ∃ g ∈ hybridGroups D4 ccu4 2 6,
      ev4.original_index ∈ g ∧
      (∀ i ∈ g, ccu4.getD i 0 ≤ ccu4.getD ev4.original_index 0) ∧
      ev4.peak_ccu = truncQ (ccu4.getD ev4.original_index 0) ∧
      ev4.spike_duration_indices = g.length := by
  constructor
  · have hl : hybridConsensus D4 ccu4 2 = [] ++ 2 :: 3 :: [] := by
      with_unfolding_all decide
    exact (C4_grouping_and_peak.1 6 (hybridConsensus D4 ccu4 2)).2.1
      [] [] 2 3 hl (by decide)
  · have hmem : ev4 ∈ (detectAnomaliesHybrid D4 ccu4 2 6 false 0).spike_details := by
      with_unfolding_all decide
    exact C4_grouping_and_peak.2 D4 ccu4 2 6 false 0 ev4 hmem

/-! ## C5 -/

/-- C5: with `focus_recent` set and a positive `recent_count`, every
reported event's peak lies in the recent window (its absolute index is at
least `n - recent_count`), and its reported index is rebased by
subtracting `n - recent_count`, hence lies in `0 .. recent_count - 1`. -/
theorem C5_focus_recent_window (D : Detectors) (ccu : List ℚ) (mv gw rc : ℕ)
    (hrc : 0 < rc) :
    ∀ ev ∈ (detectAnomaliesHybrid D ccu mv gw true rc).spike_details,
      (ccu.length : ℤ) - (rc : ℤ) ≤ (ev.original_index : ℤ) ∧
      ev.peak_index = (ev.original_index : ℤ) - ((ccu.length : ℤ) - (rc : ℤ)) ∧
      0 ≤ ev.peak_index ∧ ev.peak_index < (rc : ℤ) := by
  intro ev hev
  obtain ⟨g, hg, hsome⟩ := mem_hybridDetails hev
  have hinv := detailOfGroup_eq_some hsome
  obtain ⟨g', hg', hgne, horig, hmaj, hcons, hlt⟩ := spike_detail_group hev
  have hrs : hybridRecentStart ccu.length true rc = (ccu.length : ℤ) - (rc : ℤ) := by
    simp [hybridRecentStart, hrc]
  have hskip := hinv.2.2.1 rfl hrc
  rw [hrs] at hskip
  have hpeak := hinv.2.2.2.1
  rw [if_pos rfl, hrs] at hpeak
  refine ⟨hskip, hpeak, ?_, ?_⟩
  · rw [hpeak]
    omega
  · rw [hpeak]
    have : (ev.original_index : ℤ) < (ccu.length : ℤ) := by exact_mod_cast hlt
    omega

set_option maxRecDepth 4000 in
/-- C5, witness: the rebased index of the concrete focused run equals the
absolute index minus the window offset and lies inside the window. -/
theorem C5_focus_recent_window_witness :
    (ccu5.length : ℤ) - (10 : ℕ) ≤ (ev5.original_index : ℤ) ∧
    ev5.peak_index = (ev5.original_index : ℤ) - ((ccu5.length : ℤ) - (10 : ℕ)) ∧
    0 ≤ ev5.peak_index ∧ ev5.peak_index < ((10 : ℕ) : ℤ) := by
  have hmem : ev5 ∈ (detectAnomaliesHybrid D5 ccu5 2 6 true 10).spike_details := by
    with_unfolding_all decide
  exact C5_focus_recent_window D5 ccu5 2 6 10 (by norm_num) ev5 hmem

/-! ## C8 -/

set_option maxRecDepth 4000 in
/-- C8, counterexample: in a run whose single group is `[0, 1]` with peak
at index 0, all three methods flag some sample of the group (the
`methods_agreed` set has three entries), but the event's vote count is 2 —
the votes at the peak index — so the vote count does not equal the number
of methods that flagged a sample of the group. -/
theorem C8_group_votes_counterexample :
    (detectAnomaliesHybrid D8 ccu8 2 6 false 0).spike_details.map
      (fun ev => (ev.votes, ev.methods_agreed)) =
      [(2, ["STL", "peak_prominence", "LOF"])] := by
  with_unfolding_all decide

/-- C8, amended: when each detector's flag list has no duplicates, every
reported event's vote count equals the number of detector methods that
flagged the event's peak sample (not the number of methods that flagged
some sample of the group, which `methods_agreed` records). -/
theorem C8_votes_at_peak (D : Detectors) (ccu : List ℚ) (mv gw : ℕ)
    (fr : Bool) (rc : ℕ)
    (hs : (flagsOf (D.stl ccu)).Nodup) (hp : (flagsOf (D.peaks ccu)).Nodup)
    (hl : (flagsOf (D.lof ccu)).Nodup) :
    ∀ ev ∈ (detectAnomaliesHybrid D ccu mv gw fr rc).spike_details,
      ev.votes =
        (if ev.original_index ∈ flagsOf (D.stl ccu) then 1 else 0) +
        (if ev.original_index ∈ flagsOf (D.peaks ccu) then 1 else 0) +
        (if ev.original_index ∈ flagsOf (D.lof ccu) then 1 else 0) := by
  have hcount : ∀ (l : List ℕ), l.Nodup → ∀ a : ℕ,
      l.count a = if a ∈ l then 1 else 0 := by
    intro l hnd a
    by_cases hm : a ∈ l
    · rw [if_pos hm]
      exact le_antisymm (List.nodup_iff_count_le_one.mp hnd a)
        (List.one_le_count_iff.mpr hm)
    · rw [if_neg hm, List.count_eq_zero.mpr hm]
  intro ev hev
  obtain ⟨g, hg, hsome⟩ := mem_hybridDetails hev
  have hinv := detailOfGroup_eq_some hsome
  obtain ⟨g', hg', hgne, horig, hmaj, hcons, hlt⟩ := spike_detail_group hev
  have hv : hybridVotes D ccu =
      voteCounts ccu.length (flagsOf (D.stl ccu)) (flagsOf (D.peaks ccu))
        (flagsOf (D.lof ccu)) := rfl
  rw [hinv.2.2.2.2.2.1, hv, voteCounts_getD _ _ _ _ _ hlt,
    List.count_append, List.count_append, hcount _ hs, hcount _ hp,
    hcount _ hl]

set_option maxRecDepth 4000 in
/-- C8, witness: in the concrete run the vote count of the reported event
equals the number of methods flagging its peak sample (two of three). -/
theorem C8_votes_at_peak_witness :
    ev8.votes =
      (if ev8.original_index ∈ flagsOf (D8.stl ccu8) then 1 else 0) +
      (if ev8.original_index ∈ flagsOf (D8.peaks ccu8) then 1 else 0) +
      (if ev8.original_index ∈ flagsOf (D8.lof ccu8) then 1 else 0) := by
  have hmem : ev8 ∈ (detectAnomaliesHybrid D8 ccu8 2 6 false 0).spike_details := by
    with_unfolding_all decide
  exact C8_votes_at_peak D8 ccu8 2 6 false 0 (by with_unfolding_all decide)
    (by with_unfolding_all decide) (by with_unfolding_all decide) ev8 hmem

/-! ## C9 and C10 -/

theorem okOr_spec (e : Except String AnomalyResult) (he : e.isOk = true) :
    e = .ok (okOr defaultResult e) := by
  cases e with
  | ok r => rfl
  | error s => simp [Except.isOk, Except.toBool] at he

/-- C9: in the detection response, `is_anomalous` holds exactly when at
least one spike event survived filtering; when events exist the
`anomaly_score` is the strictly negative value derived from the surviving
events' average vote count (and that derivation is antitone: more votes
give a more negative score); with no events the score is the fixed mildly
positive `0.1`. -/
theorem C9_anomaly_score (D : Detectors) (m : MapData) (hist : List ℚ)
    (hd : ℕ) (r : AnomalyResult)
    (h : detectAnomalies D (some m) hist hd = .ok r) :
    (r.is_anomalous = true ↔ 0 < r.num_spikes) ∧
    (0 < r.num_spikes →
      r.anomaly_score =
        scoreOfAvgVotes (npMean
          ((hybridDetails D
              (if usesHistorical hist m.stats_7d.data_points then hist
                else m.stats_7d.data_points) 2 6
              (usesHistorical hist m.stats_7d.data_points)
              m.stats_7d.data_points.length).map (fun s => (s.votes : ℚ)))) ∧
      r.anomaly_score < 0) ∧
    (r.num_spikes = 0 → r.anomaly_score = 1/10) ∧
    (∀ a b : ℚ, 0 ≤ a → a ≤ b → scoreOfAvgVotes b ≤ scoreOfAvgVotes a) := by
  simp only [detectAnomalies] at h
  split at h
  · split at h
    · exact absurd h (by simp)
    · rename_i hs hl
      have hr := Except.ok.inj h
      subst hr
      refine ⟨by simp, ?_, ?_, ?_⟩
      · intro hpos
        dsimp only at hpos ⊢
        rw [hybrid_num_spikes] at hpos
        rw [hybrid_spike_details]
        simp only [anomalyScore]
        rw [if_pos hpos]
        refine ⟨rfl, ?_⟩
        have havg : 0 ≤ npMean
            ((hybridDetails D
              (if usesHistorical hist m.stats_7d.data_points then hist
                else m.stats_7d.data_points) 2 6
              (usesHistorical hist m.stats_7d.data_points)
              m.stats_7d.data_points.length).map (fun s => (s.votes : ℚ))) := by
          apply npMean_nonneg
          intro x hx
          obtain ⟨s, _, rfl⟩ := List.mem_map.mp hx
          positivity
        simp only [scoreOfAvgVotes]
        linarith
      · intro h0
        dsimp only at h0 ⊢
        rw [hybrid_num_spikes] at h0
        rw [hybrid_spike_details]
        simp only [anomalyScore]
        rw [if_neg (by rw [h0]; exact lt_irrefl 0)]
      · intro a b ha hab
        simp only [scoreOfAvgVotes]
        linarith
  · exact absurd h (by simp)

set_option maxRecDepth 4000 in
/-- C9, witness: the theorem applied to a concrete run with no surviving
events yields the fixed normal score. -/
theorem C9_anomaly_score_witness :
    (okOr defaultResult (detectAnomalies D9 (some m9) [] 0)).anomaly_score
      = 1/10 := by
  have hok : (detectAnomalies D9 (some m9) [] 0).isOk = true := by
    with_unfolding_all decide
  have hz : (okOr defaultResult (detectAnomalies D9 (some m9) [] 0)).num_spikes
      = 0 := by
    with_unfolding_all decide
  exact (C9_anomaly_score D9 m9 [] 0 _ (okOr_spec _ hok)).2.2.1 hz

set_option maxRecDepth 4000 in
/-- C10: the response's `spike_details` list is the per-event projection
of the surviving events truncated to the first 10, while `num_spikes`
counts all surviving events; the length of `spike_details` never exceeds
10, and a concrete 71-sample run with eleven surviving spikes reports
`num_spikes = 11` with only 10 entries in `spike_details`. -/
theorem C10_details_truncated :
    (∀ (D : Detectors) (m : MapData) (hist : List ℚ) (hd : ℕ)
        (r : AnomalyResult),
      detectAnomalies D (some m) hist hd = .ok r →
      r.spike_details.length ≤ 10 ∧
      r.spike_details =
        ((hybridDetails D
            (if usesHistorical hist m.stats_7d.data_points then hist
              else m.stats_7d.data_points) 2 6
            (usesHistorical hist m.stats_7d.data_points)
            m.stats_7d.data_points.length).map outDetail).take 10 ∧
      r.num_spikes =
        (hybridDetails D
            (if usesHistorical hist m.stats_7d.data_points then hist
              else m.stats_7d.data_points) 2 6
            (usesHistorical hist m.stats_7d.data_points)
            m.stats_7d.data_points.length).length) ∧
    ((detectAnomalies D10 (some m10) [] 0).isOk = true ∧
      (okOr defaultResult (detectAnomalies D10 (some m10) [] 0)).num_spikes
        = 11 ∧
      (okOr defaultResult
        (detectAnomalies D10 (some m10) [] 0)).spike_details.length = 10) := by
  constructor
  · intro D m hist hd r h
    simp only [detectAnomalies] at h
    split at h
    · split at h
      · exact absurd h (by simp)
      · rename_i hs hl
        have hr := Except.ok.inj h
        subst hr
        refine ⟨?_, ?_, ?_⟩
        · dsimp only
          rw [List.length_take]
          exact min_le_left _ _
        · dsimp only
          rw [hybrid_spike_details]
        · dsimp only
          rw [hybrid_num_spikes]
    · exact absurd h (by simp)
  · refine ⟨?_, ?_, ?_⟩
    · with_unfolding_all decide
    · with_unfolding_all decide
    · with_unfolding_all decide

/-! ## C2: helper lemmas on constant series -/

theorem npMean_zero_of (l : List ℚ) (h : ∀ x ∈ l, x = 0) : npMean l = 0 := by
  unfold npMean
  rw [List.sum_eq_zero h, zero_div]

theorem npVariance_replicate (c : ℚ) (n : ℕ) :
    npVariance (List.replicate n c) = 0 := by
  by_cases hn : n = 0
  · subst hn
    simp [npVariance, npMean]
  · unfold npVariance
    rw [npMean_replicate c n hn, List.map_replicate]
    simp

theorem volatility_replicate (sq : ℚ → ℚ) (h0 : sq 0 = 0) (c : ℚ) (n : ℕ)
    (hn : 10 ≤ n) :
    (calculateTrendFeatures sq ⟨true, List.replicate n c⟩).volatility = 0 := by
  simp only [calculateTrendFeatures]
  rw [if_neg (by simp), if_neg (by simp [List.length_replicate]; omega)]
  show npStd sq (List.replicate n c) / max (npMean (List.replicate n c)) 1 = 0
  unfold npStd
  rw [npVariance_replicate, h0, zero_div]

theorem sortQ_replicate (n : ℕ) (c : ℚ) :
    sortQ (List.replicate n c) = List.replicate n c := by
  induction n with
  | zero => rfl
  | succ m ih =>
    show sortQ (c :: List.replicate m c) = _
    unfold sortQ
    rw [ih]
    cases m with
    | zero => rfl
    | succ k =>
      show insertQ c (c :: List.replicate k c) = _
      unfold insertQ
      rw [if_pos (le_refl c)]
      rfl

theorem npPercentile_replicate_zero (n : ℕ) (p : ℚ) :
    npPercentile (List.replicate n (0 : ℚ)) p = 0 := by
  simp only [npPercentile]
  rw [sortQ_replicate]
  rw [getD_replicate, getD_replicate]
  split_ifs <;> ring

theorem movingAvg_replicate (p n : ℕ) (c : ℚ) :
    movingAvg p (List.replicate n c) = List.replicate n c := by
  rw [List.eq_replicate_iff]
  constructor
  · simp [movingAvg]
  · intro b hb
    simp only [movingAvg, List.length_replicate, List.mem_map,
      List.mem_range] at hb
    obtain ⟨i, hi, rfl⟩ := hb
    rw [List.drop_replicate, List.take_replicate]
    set k := min (min n (i + p / 2 + 1) - (i - p / 2)) (n - (i - p / 2)) with hk
    have hkpos : 0 < k := by
      have h1 : i - p / 2 ≤ i := Nat.sub_le _ _
      omega
    exact npMean_replicate c k (Nat.pos_iff_ne_zero.mp hkpos)

theorem seasonalMean_zero (p : ℕ) (n : ℕ) (j : ℕ) :
    seasonalMean p (List.replicate n (0 : ℚ)) j = 0 := by
  apply npMean_zero_of
  intro x hx
  simp only [List.mem_map] at hx
  obtain ⟨i, _, rfl⟩ := hx
  rw [getD_replicate]
  split_ifs <;> rfl

theorem stlResiduals_replicate (p n : ℕ) (c : ℚ) :
    stlResiduals p (List.replicate n c) = List.replicate n 0 := by
  simp only [stlResiduals]
  rw [movingAvg_replicate, List.zipWith_replicate, min_self, sub_self]
  simp only [seasonalMean_zero]
  rw [List.eq_replicate_iff]
  refine ⟨by simp, ?_⟩
  intro b hb
  simp only [List.length_replicate, List.mem_map, List.mem_range] at hb
  obtain ⟨i, hi, rfl⟩ := hb
  rw [getD_replicate, if_pos hi]
  have hmz : npMean ((List.range (min p n)).map (fun j => (0 : ℚ))) = 0 :=
    npMean_zero_of _ (by simp)
  rw [hmz]
  ring

theorem detectStl_replicate (c : ℚ) (n : ℕ) :
    detectAnomaliesStl (List.replicate n c) 48 = [] := by
  simp only [detectAnomaliesStl]
  split_ifs with h
  · rfl
  · rw [stlResiduals_replicate]
    rw [List.filter_eq_nil_iff]
    intro i hi
    rw [npPercentile_replicate_zero, npPercentile_replicate_zero]
    simp only [decide_eq_true_iff, not_lt]
    rw [getD_replicate]
    split_ifs <;> norm_num

theorem plateauPeak_replicate (n : ℕ) (c : ℚ) (i : ℕ) :
    plateauPeak (List.replicate n c) i = none := by
  unfold plateauPeak
  rw [if_neg]
  rintro ⟨h1, h2, h3⟩
  rw [List.length_replicate] at h2
  rw [getD_replicate, getD_replicate, if_pos h2, if_pos (by omega)] at h3
  exact lt_irrefl c h3

theorem localMaxima_replicate (n : ℕ) (c : ℚ) :
    localMaxima (List.replicate n c) = [] := by
  unfold localMaxima
  rw [List.filterMap_eq_nil_iff]
  intro i _
  exact plateauPeak_replicate n c i

theorem detectPeaks_replicate (c : ℚ) (n : ℕ) :
    detectAnomaliesPeaks (List.replicate n c) 90 6 = [] := by
  simp only [detectAnomaliesPeaks]
  rw [localMaxima_replicate]
  rfl

theorem lof_count_le_one (sq : ℚ → ℚ) (l : List ℚ) (k : ℕ) (cont : ℚ)
    (i : ℕ) : (detectAnomaliesLof sq l k cont).count i ≤ 1 := by
  unfold detectAnomaliesLof
  split_ifs with h
  · simp
  · exact List.nodup_iff_count_le_one.mp
      ((List.nodup_range l.length).filter _) i

theorem hybrid_replicate_no_spikes (sq : ℚ → ℚ) (c : ℚ) (n : ℕ) (fr : Bool)
    (rc : ℕ) :
    (detectAnomaliesHybrid (realDetectors sq) (List.replicate n c) 2 6 fr
      rc).num_spikes = 0 := by
  have hcons : hybridConsensus (realDetectors sq) (List.replicate n c) 2 = [] := by
    unfold hybridConsensus consensusIndices
    rw [List.filter_eq_nil_iff]
    intro i hi
    rw [List.mem_range, hybridVotes, voteCounts_length] at hi
    simp only [decide_eq_true_iff, not_le]
    have hstl : flagsOf ((realDetectors sq).stl (List.replicate n c)) = [] := by
      show detectAnomaliesStl (List.replicate n c) 48 = []
      exact detectStl_replicate c n
    have hpk : flagsOf ((realDetectors sq).peaks (List.replicate n c)) = [] := by
      show detectAnomaliesPeaks (List.replicate n c) 90 6 = []
      exact detectPeaks_replicate c n
    show (hybridVotes (realDetectors sq) (List.replicate n c)).getD i 0 < 2
    have hlof : flagsOf ((realDetectors sq).lof (List.replicate n c)) =
        detectAnomaliesLof sq (List.replicate n c) 20 (1/20) := rfl
    rw [hybridVotes, voteCounts_getD _ _ _ _ _ hi, hstl, hpk, hlof]
    simp only [List.nil_append]
    have := lof_count_le_one sq (List.replicate n c) 20 (1/20) i
    omega
  rw [hybrid_num_spikes]
  unfold hybridDetails hybridGroups
  rw [hcons]
  rfl

/-! ## C2 -/

set_option maxRecDepth 4000 in
set_option maxHeartbeats 1000000 in
/-- C2, counterexample: on the constant series of 25 samples of value 5,
the local-outlier-factor detector (as modelled from the spec: contamination
quantile of the LOF scores) flags the two boundary indices 0 and 24 — the
evenly spaced index grid makes boundary points locally sparser — so the
claim that all three detectors return an empty set on every constant
series is false. -/
theorem C2_lof_counterexample :
    detectAnomaliesLof ratSqrt series25 20 (1/20) = [0, 24] ∧
    detectAnomaliesLof ratSqrt series25 20 (1/20) ≠ [] := by
  have heq : detectAnomaliesLof ratSqrt series25 20 (1/20) = [0, 24] := by
    with_unfolding_all decide
  exact ⟨heq, by rw [heq]; simp⟩

/-- C2, amended: for every constant series, the computed volatility is 0
(for length at least 10), the seasonal-residual and peak-prominence
detectors return empty flag sets, and the hybrid detector reports zero
spike events; the local-outlier-factor detector alone may flag boundary
points of the index grid (its contamination parameter sets a score
quantile), but such flags never reach the two-vote consensus. -/
theorem C2_constant_series_behavior :
    (∀ (sq : ℚ → ℚ), sq 0 = 0 → ∀ (c : ℚ) (n : ℕ), 10 ≤ n →
      (calculateTrendFeatures sq ⟨true, List.replicate n c⟩).volatility = 0) ∧
    (∀ (c : ℚ) (n : ℕ), detectAnomaliesStl (List.replicate n c) 48 = []) ∧
    (∀ (c : ℚ) (n : ℕ), detectAnomaliesPeaks (List.replicate n c) 90 6 = []) ∧
    (∀ (sq : ℚ → ℚ) (c : ℚ) (n : ℕ) (fr : Bool) (rc : ℕ),
      (detectAnomaliesHybrid (realDetectors sq) (List.replicate n c) 2 6 fr
        rc).num_spikes = 0) :=
  ⟨fun sq h0 c n hn => volatility_replicate sq h0 c n hn,
   fun c n => detectStl_replicate c n,
   fun c n => detectPeaks_replicate c n,
   fun sq c n fr rc => hybrid_replicate_no_spikes sq c n fr rc⟩

set_option maxRecDepth 4000 in
/-- C2, witness: the amended theorem applied to the constant series of 96
samples of value 5 with the concrete square-root function. -/
theorem C2_constant_series_behavior_witness :
    (calculateTrendFeatures ratSqrt ⟨true, List.replicate 96 5⟩).volatility = 0 ∧
    detectAnomaliesStl (List.replicate 96 5) 48 = [] ∧
    detectAnomaliesPeaks (List.replicate 96 5) 90 6 = [] ∧
    (detectAnomaliesHybrid (realDetectors ratSqrt) (List.replicate 96 5) 2 6
      false 0).num_spikes = 0 := by
  have h0 : ratSqrt 0 = 0 := by with_unfolding_all decide
  exact ⟨C2_constant_series_behavior.1 ratSqrt h0 5 96 (by norm_num),
    C2_constant_series_behavior.2.1 5 96,
    C2_constant_series_behavior.2.2.1 5 96,
    C2_constant_series_behavior.2.2.2 ratSqrt 5 96 false 0⟩

set_option maxRecDepth 4000 in
/-- C10, witness: the universally quantified part applied to the concrete
eleven-spike run. -/
theorem C10_details_truncated_witness :
    (okOr defaultResult
      (detectAnomalies D10 (some m10) [] 0)).spike_details.length ≤ 10 := by
  have hok : (detectAnomalies D10 (some m10) [] 0).isOk = true := by
    with_unfolding_all decide
  exact (C10_details_truncated.1 D10 m10 [] 0 _ (okOr_spec _ hok)).1

end Harvest
